import Mathlib

/-!
Verification of the sqldb repository (a reflection-driven typed query layer
over a relational backend) against its natural-language specification.

The definitions below are a shallow embedding of the Go source:
  - `sqldb.go` (third revision in the file): `ColumnName`, `Column[T]` /
    `PtrColumn[T]` comparison methods, `newOpOption`, `OpOption`
    (a `mo.Either` of a join condition and a literal condition), filter
    option kinds;
  - `model.go` (the revision with `Executor`, given as `part_003`):
    `NewModel`, `parseColumn`, `executor.Update`, `executor.List`,
    `applyHelper` (`applyOpQueryOptions`, `applyRangeQueryOptions`,
    `applyFuzzyQueryOptions`), `parseFilterOptions`, `getColumnName`;
  - `join.go`: the `join` clause construction.

Go panics and `errors.New` results are both embedded as `Except` errors of
the inductive `SqldbErr`.  Machine integers are modelled as `Int`/`Nat`
with explicit wrapping mod `2 ^ 64` where Go conversions can overflow.
-/

namespace Sqldb

/-- The universe of Go underlying types used for `Column[T]` payloads
(`int`, `uint64`, `string`, `bool` are the ones exercised by the repo's
models and tests). -/
inductive GoTy where
  | int
  | uint
  | str
  | bool
deriving DecidableEq, Repr

/-- The Go type name, as produced by `reflect.Type.String()` for the
types in our universe (used in the `newOpOption` panic message). -/
def GoTy.typeName : GoTy → String
  | .int => "int"
  | .uint => "uint64"
  | .str => "string"
  | .bool => "bool"

/-- A Go value of one of the types in `GoTy`.  `int` carries a 64-bit
signed value, `uint` a 64-bit unsigned value; both are stored unbounded
and wrapped explicitly on conversion. -/
inductive GoVal where
  | int (n : Int)
  | uint (n : Nat)
  | str (s : String)
  | bool (b : Bool)
deriving DecidableEq, Repr

/-- `reflect.TypeOf` on a `GoVal`. -/
def GoVal.tyOf : GoVal → GoTy
  | .int _ => .int
  | .uint _ => .uint
  | .str _ => .str
  | .bool _ => .bool

/-- Go `reflect.Value.CanConvert` restricted to our universe: the numeric
types convert to each other, integers additionally convert to `string`
(Go's rune conversion), `string` and `bool` convert only to themselves. -/
def convertible : GoTy → GoTy → Bool
  | .int, .int => true
  | .int, .uint => true
  | .uint, .int => true
  | .uint, .uint => true
  | .int, .str => true
  | .uint, .str => true
  | .str, .str => true
  | .bool, .bool => true
  | _, _ => false

/-- Reduce an unbounded integer to Go's 64-bit unsigned range. -/
def toUint64 (n : Int) : Nat := (n % (2 ^ 64 : Int)).toNat

/-- Reduce an unbounded integer to Go's 64-bit signed range
(two's complement). -/
def toInt64 (n : Int) : Int :=
  let m := n % (2 ^ 64 : Int)
  if m < 2 ^ 63 then m else m - 2 ^ 64

/-- Go's integer-to-string conversion `string(n)`: the one-rune string of
the code point, or the replacement character for invalid code points. -/
def goIntToString (n : Int) : String :=
  if 0 ≤ n ∧ n.toNat.isValidChar then String.mk [Char.ofNat n.toNat]
  else String.mk [Char.ofNat 0xFFFD]

/-- Go `reflect.Value.Convert` on our universe; meaningful exactly when
`convertible` holds, the identity otherwise (that branch is unreachable
in `newOpOption`, which checks `CanConvert` first). -/
def convertVal : GoVal → GoTy → GoVal
  | .int n, .int => .int (toInt64 n)
  | .int n, .uint => .uint (toUint64 n)
  | .int n, .str => .str (goIntToString n)
  | .uint n, .int => .int (toInt64 n)
  | .uint n, .uint => .uint (toUint64 n)
  | .uint n, .str => .str (goIntToString n)
  | v, _ => v

/-- Go `fmt` `%v` formatting for our value universe. -/
def formatV : GoVal → String
  | .int n => toString n
  | .uint n => toString n
  | .str s => s
  | .bool b => cond b "true" "false"

/-- Every failure surfaced by the embedded code paths: Go panics and
`errors.New` values alike.
  - `invalidOperand`: the `newOpOption` panic
    `"Value of type %s can not convert to type %s"`;
  - `mustRightOnLeft`: the `mo.Either.MustRight` panic hit when
    `OpOption.GetFilterOptionType` is called on a join condition;
  - `mustLeftOnRight`: the `mo.Either.MustLeft` panic hit when `join`
    receives a literal-compare `OpOption`;
  - `emptyOptions`: `errors.New("empty options")` from `executor.Update`;
  - `missingOp`: the `"Op must be provided in IsQueryOption"` panic;
  - `unsupportedSerializer`: the `"unsupported serializer %s"` panic from
    `parseColumn`. -/
inductive SqldbErr where
  | invalidOperand (src dst : String)
  | mustRightOnLeft
  | mustLeftOnRight
  | emptyOptions
  | missingOp
  | unsupportedSerializer (name : String)
deriving DecidableEq, Repr

/-- Decidable equality for `Except`, so witnesses can be checked by
evaluation. -/
instance {ε α : Type} [DecidableEq ε] [DecidableEq α] :
    DecidableEq (Except ε α) := fun x y =>
  match x, y with
  | .error a, .error b =>
    if h : a = b then .isTrue (by rw [h])
    else .isFalse (by intro hc; injection hc; contradiction)
  | .ok a, .ok b =>
    if h : a = b then .isTrue (by rw [h])
    else .isFalse (by intro hc; injection hc; contradiction)
  | .error _, .ok _ => .isFalse (by intro hc; cases hc)
  | .ok _, .error _ => .isFalse (by intro hc; cases hc)

/-- `QueryOp` is a string type in the source; the six constants follow. -/
abbrev QueryOp := String

def OpEq : QueryOp := "="
def OpNe : QueryOp := "!="
def OpGt : QueryOp := ">"
def OpLt : QueryOp := "<"
def OpGte : QueryOp := ">="
def OpLte : QueryOp := "<="

/-- `ColumnName`: an optional table qualifier plus a bare name. -/
structure ColumnName where
  table : String
  Name : String
deriving DecidableEq, Repr

/-- `ColumnName.String()`: the bare name. -/
def ColumnName.str (cn : ColumnName) : String := cn.Name

/-- `ColumnName.Full()`: `table.name` when a qualifier is present,
otherwise the bare name. -/
def ColumnName.Full (cn : ColumnName) : String :=
  if cn.table = "" then cn.Name else cn.table ++ "." ++ cn.Name

/-- `opJoinOption`: a column-to-column (join) condition. -/
structure OpJoinOpt where
  left : ColumnName
  right : ColumnName
  op : QueryOp
deriving DecidableEq, Repr

/-- `opQueryOption`: a column-to-literal condition. -/
structure OpQueryOpt where
  name : ColumnName
  value : GoVal
  op : QueryOp
deriving DecidableEq, Repr

/-- `OpOption`: `mo.Either[OpJoinOption, OpQueryOption]` — resolved at
construction into exactly one of the two shapes (`join` is the Either's
Left, `query` its Right). -/
inductive OpOption where
  | join (opt : OpJoinOpt)
  | query (opt : OpQueryOpt)
deriving DecidableEq, Repr

/-- `mo.Either.MustLeft`: the join condition, panicking on a literal
condition. -/
def OpOption.mustLeft : OpOption → Except SqldbErr OpJoinOpt
  | .join o => .ok o
  | .query _ => .error .mustLeftOnRight

/-- `mo.Either.MustRight`: the literal condition, panicking on a join
condition. -/
def OpOption.mustRight : OpOption → Except SqldbErr OpQueryOpt
  | .join _ => .error .mustRightOnLeft
  | .query o => .ok o

/-- The operand handed to `Column[T].EQ` and friends: either a plain
literal, or another column handle (a value implementing `reflectValue`
and `GetColumnName`; `reflectValue` produces the zero value of the
column's underlying type). -/
inductive Operand where
  | lit (v : GoVal)
  | col (ty : GoTy) (name : ColumnName)
deriving DecidableEq, Repr

/-- The type of `rv` in `newOpOption`: the operand's own type for a
literal, the underlying type of the zero value from `reflectValue` for a
column handle. -/
def Operand.reflTy : Operand → GoTy
  | .lit v => v.tyOf
  | .col ty _ => ty

/-- `newOpOption[T](v, op, name)`: checks `rv.CanConvert(T)` (panicking
with `InvalidOperand` otherwise), then resolves the option once, at
construction: a column operand becomes the Either's Left (a join
condition from `name` to the operand's column name), a literal operand
becomes the Either's Right carrying the operand converted to `T`. -/
def newOpOption (T : GoTy) (v : Operand) (op : QueryOp) (name : ColumnName) :
    Except SqldbErr OpOption :=
  if convertible v.reflTy T then
    match v with
    | .col _ rname => .ok (.join ⟨name, rname, op⟩)
    | .lit val => .ok (.query ⟨name, convertVal val T, op⟩)
  else
    .error (.invalidOperand v.reflTy.typeName T.typeName)

/-- The column identity carried by a `Column[T]` / `PtrColumn[T]` field:
the declared underlying type `T` and the embedded `ColumnName`. -/
structure ColumnId where
  ty : GoTy
  name : ColumnName
deriving DecidableEq, Repr

/-- Passing a column handle as the right operand of a comparison: the
callee sees a value exposing `reflectValue` (zero of the underlying
type) and `GetColumnName`. -/
def ColumnId.asOperand (c : ColumnId) : Operand := .col c.ty c.name

def ColumnId.EQ (c : ColumnId) (v : Operand) : Except SqldbErr OpOption :=
  newOpOption c.ty v OpEq c.name

def ColumnId.NE (c : ColumnId) (v : Operand) : Except SqldbErr OpOption :=
  newOpOption c.ty v OpNe c.name

def ColumnId.GT (c : ColumnId) (v : Operand) : Except SqldbErr OpOption :=
  newOpOption c.ty v OpGt c.name

def ColumnId.LT (c : ColumnId) (v : Operand) : Except SqldbErr OpOption :=
  newOpOption c.ty v OpLt c.name

def ColumnId.GTE (c : ColumnId) (v : Operand) : Except SqldbErr OpOption :=
  newOpOption c.ty v OpGte c.name

def ColumnId.LTE (c : ColumnId) (v : Operand) : Except SqldbErr OpOption :=
  newOpOption c.ty v OpLte c.name

/-! ## Filter options and the executor's filter boundary (`model.go`) -/

/-- `FilterOptionType`: the string constants `"OpQuery"`, `"RangeQuery"`,
`"FuzzyQuery"`. -/
inductive FilterOptionType where
  | OpQuery
  | RangeQuery
  | FuzzyQuery
deriving DecidableEq, Repr

/-- `rangeQueryOption`: a set of literal values plus the `exclude` flag
(`In` / `NotIn`). -/
structure RangeQ where
  name : ColumnName
  values : List GoVal
  exclude : Bool
deriving DecidableEq, Repr

/-- `fuzzyQueryOption`: a set of literal values matched with `LIKE`. -/
structure FuzzyQ where
  name : ColumnName
  values : List GoVal
deriving DecidableEq, Repr

/-- `OpOption.GetFilterOptionType`: delegates to `MustRight`, so it
panics on a join condition and returns `OpQuery` on a literal one. -/
def OpOption.GetFilterOptionType (o : OpOption) :
    Except SqldbErr FilterOptionType :=
  o.mustRight.map fun _ => .OpQuery

/-- The `FilterOption` interface: one of the three option flavors
(`OpOption`, range, fuzzy). -/
inductive FilterOption where
  | op (o : OpOption)
  | range (r : RangeQ)
  | fuzzy (f : FuzzyQ)
deriving DecidableEq, Repr

/-- The three slices accumulated by `parseFilterOptions`. -/
structure ParsedFilters where
  opQuery : List OpQueryOpt := []
  range : List RangeQ := []
  fuzzy : List FuzzyQ := []
deriving DecidableEq, Repr

/-- One iteration of the `parseFilterOptions` loop: the `switch` on
`opt.GetFilterOptionType()` evaluates its scrutinee first, which panics
(`MustRight`) when the `OpOption` is a join condition; otherwise the
option is appended to the slice for its flavor. -/
def parseFilterStep (acc : ParsedFilters) (opt : FilterOption) :
    Except SqldbErr ParsedFilters :=
  match opt with
  | .op o => do
    let _ ← o.GetFilterOptionType
    let q ← o.mustRight
    .ok { acc with opQuery := acc.opQuery ++ [q] }
  | .range r => .ok { acc with range := acc.range ++ [r] }
  | .fuzzy f => .ok { acc with fuzzy := acc.fuzzy ++ [f] }

/-- `parseFilterOptions`: partitions a `FilterOption` list into the three
slices, panicking on any `OpOption` that was resolved as a join
condition. -/
def parseFilterOptions (opts : List FilterOption) :
    Except SqldbErr ParsedFilters :=
  opts.foldlM parseFilterStep {}

/-- `getColumnName`: qualified form for joined models, bare name
otherwise. -/
def getColumnName (joined : Bool) (cn : ColumnName) : String :=
  if joined then cn.Full else cn.str

/-- Minimal JSON string escaping (quote and backslash), as performed by
`json.Marshal` on the characters our values use. -/
def jsonEscape (s : String) : String :=
  s.foldl
    (fun acc c =>
      acc ++ (if c = '"' then "\\\"" else if c = '\\' then "\\\\"
              else String.mk [c]))
    ""

/-- `jsonSerializer.value`: `json.Marshal` of the value, rendered as a
string (never fails on our value universe). -/
def goJson : GoVal → String
  | .int n => toString n
  | .uint n => toString n
  | .str s => "\"" ++ jsonEscape s ++ "\""
  | .bool b => cond b "true" "false"

/-- `executor.serialize`: applies the `json` serializer when the column
was registered with one, the identity otherwise.  `sers` is the model's
`columnSerializers` key set. -/
def serializeVal (sers : List String) (column : String) (v : GoVal) : GoVal :=
  if sers.contains column then .str (goJson v) else v

/-- One bound argument of a `gorm` `Where` call: a scalar for `?`, a
value list for `(?)`. -/
inductive WhereArg where
  | one (v : GoVal)
  | many (vs : List GoVal)
deriving DecidableEq, Repr

/-- One `Where` clause: the SQL fragment plus its bound arguments. -/
structure WhereClause where
  query : String
  args : List WhereArg
deriving DecidableEq, Repr

/-- The query accumulated on a `gorm.DB` handle by the executor: the
`Where` clauses (conjoined by the backend), the limit and offset (unset
until `Limit` / `Offset` is called), and the `Order` clauses. -/
structure QueryState where
  wheres : List WhereClause := []
  limit : Option Nat := none
  offset : Option Nat := none
  orders : List String := []
deriving DecidableEq, Repr

/-- `db.Where(query, args...)`: appends one conjunct. -/
def QueryState.Where (q : QueryState) (query : String) (args : List WhereArg) :
    QueryState :=
  { q with wheres := q.wheres ++ [⟨query, args⟩] }

/-- `db.Limit(n)`. -/
def QueryState.Limit (q : QueryState) (n : Nat) : QueryState :=
  { q with limit := some n }

/-- `db.Offset(n)`. -/
def QueryState.Offset (q : QueryState) (n : Nat) : QueryState :=
  { q with offset := some n }

/-- `db.Order(s)`. -/
def QueryState.Order (q : QueryState) (s : String) : QueryState :=
  { q with orders := q.orders ++ [s] }

/-- The WHERE condition the backend builds from the accumulated `Where`
calls: each call's fragment parenthesized and conjoined with `AND`
(gorm's documented composition of successive `Where` calls). -/
def QueryState.whereSQL (q : QueryState) : String :=
  String.intercalate " AND " (q.wheres.map fun w => "(" ++ w.query ++ ")")

/-- The backend's row semantics for limit and offset on the list of rows
`matching` that satisfy the WHERE condition: `OFFSET` drops, `LIMIT`
truncates, and an unset value imposes no bound.  Row ordering beyond the
incoming list order is not modelled. -/
def QueryState.runRows {α : Type} (q : QueryState) (matching : List α) :
    List α :=
  let rows := match q.offset with
    | none => matching
    | some o => matching.drop o
  match q.limit with
  | none => rows
  | some l => rows.take l

/-- `applyHelper.applyOpQueryOptions`: no-op on an empty slice; panics
when an option has an empty operator; otherwise appends one `Where`
conjunct `col op ?` per option, `AND`-joined, with serialized values. -/
def applyOpQueryOptions (joined : Bool) (sers : List String)
    (opts : List OpQueryOpt) (db : QueryState) : Except SqldbErr QueryState :=
  if opts = [] then .ok db
  else if opts.any (fun o => o.op = "") then .error .missingOp
  else
    let query := String.intercalate " AND "
      (opts.map fun o => getColumnName joined o.name ++ " " ++ o.op ++ " ?")
    let values := opts.map fun o =>
      WhereArg.one (serializeVal sers (getColumnName joined o.name) o.value)
    .ok (db.Where query values)

/-- `applyHelper.applyRangeQueryOptions`: one `Where` call covering all
range options, `col IN (?)` or `col NOT IN (?)` per the `exclude` flag,
`AND`-joined, each with its serialized value list. -/
def applyRangeQueryOptions (joined : Bool) (sers : List String)
    (opts : List RangeQ) (db : QueryState) : QueryState :=
  if opts = [] then db
  else
    let query := String.intercalate " AND "
      (opts.map fun o =>
        getColumnName joined o.name ++ " " ++
          (if o.exclude then "NOT IN" else "IN") ++ " (?)")
    let values := opts.map fun o =>
      WhereArg.many
        (o.values.map fun v => serializeVal sers (getColumnName joined o.name) v)
    db.Where query values

/-- `applyHelper.applyFuzzyQueryOptions`: one `Where` call per option;
within an option, one `col LIKE ?` predicate per value joined with
`OR`, each value wrapped in `%` wildcards on both sides (the values are
not serialized). -/
def applyFuzzyQueryOptions (joined : Bool) (opts : List FuzzyQ)
    (db : QueryState) : QueryState :=
  opts.foldl
    (fun d opt =>
      let queries := opt.values.map fun _ =>
        getColumnName joined opt.name ++ " LIKE ?"
      let values := opt.values.map fun v =>
        WhereArg.one (.str ("%" ++ formatV v ++ "%"))
      d.Where (String.intercalate " OR " queries) values)
    db

/-- `applyHelper.applyFilterOptions`: parse, then apply the op, range and
fuzzy slices in that order. -/
def applyFilterOptions (joined : Bool) (sers : List String)
    (queries : List FilterOption) (db : QueryState) :
    Except SqldbErr QueryState := do
  let parsed ← parseFilterOptions queries
  let db ← applyOpQueryOptions joined sers parsed.opQuery db
  let db := applyRangeQueryOptions joined sers parsed.range db
  .ok (applyFuzzyQueryOptions joined parsed.fuzzy db)

/-- `updateOption`: target column plus new literal value. -/
structure UpdateOpt where
  name : ColumnName
  value : GoVal
deriving DecidableEq, Repr

/-- `executor.Update` up to the backend call: an empty option list is
`errors.New("empty options")` before anything else runs; otherwise the
update map is built (serializing each value) and the filter options are
applied; the result is the update map and the query handed to the
backend's `Updates`. -/
def executorUpdate (joined : Bool) (sers : List String)
    (queries : List FilterOption) (opts : List UpdateOpt) :
    Except SqldbErr (List (String × GoVal) × QueryState) :=
  if opts = [] then .error .emptyOptions
  else do
    let updateMap := opts.map fun o =>
      let column := getColumnName joined o.name
      (column, serializeVal sers column o.value)
    let db ← applyFilterOptions joined sers queries {}
    .ok (updateMap, db)

/-- `sortOption`: target column plus direction string. -/
structure SortOpt where
  name : ColumnName
  order : String
deriving DecidableEq, Repr

/-- `ListOptions`: pagination and sorting parameters (`uint64` fields). -/
structure ListOptions where
  Offset : Nat := 0
  Limit : Nat := 0
  SortOptions : List SortOpt := []
deriving DecidableEq, Repr

/-- `executor.List` up to the backend calls: apply the filters, then
issue `Count` on the filtered query (first component), then set `Limit`
and `Offset` only when non-zero, then append the `Order` clauses; the
second component is the query handed to `Find`. -/
def executorList (joined : Bool) (sers : List String)
    (queries : List FilterOption) (opts : ListOptions) :
    Except SqldbErr (QueryState × QueryState) := do
  let db ← applyFilterOptions joined sers queries {}
  let db2 := if opts.Limit ≠ 0 then db.Limit opts.Limit else db
  let db3 := if opts.Offset ≠ 0 then db2.Offset opts.Offset else db2
  let db4 := opts.SortOptions.foldl
    (fun d so => d.Order (getColumnName joined so.name ++ " " ++ so.order)) db3
  .ok (db, db4)

/-! ## The join composer (`join.go`) -/

/-- The SELECT and JOIN fragments built by `join` and installed as the
joined model's initial query. -/
structure JoinSpec where
  selectClause : String
  joinClause : String
deriving DecidableEq, Repr

/-- `join`: every condition is unwrapped with `MustLeft` (panicking on a
literal-compare option), the ON terms `left op right` over qualified
names are conjoined with `AND`, the join keyword follows the `leftJoin`
flag, and the selected columns are projected as `full AS ` aliases.  No
emptiness check is performed on `conditions`. -/
def joinBuild (rightTable : String) (selectedColumns : List ColumnName)
    (conditions : List OpOption) (leftJoin : Bool) :
    Except SqldbErr JoinSpec := do
  let conds ← conditions.mapM OpOption.mustLeft
  let query := String.intercalate " AND "
    (conds.map fun o => o.left.Full ++ " " ++ o.op ++ " " ++ o.right.Full)
  let joinStr := (if leftJoin then "LEFT JOIN" else "INNER JOIN") ++ " " ++
    rightTable ++ " on " ++ query
  let sel := String.intercalate ","
    (selectedColumns.map fun cn => cn.Full ++ " AS `" ++ cn.Full ++ "`")
  .ok ⟨sel, joinStr⟩

/-! ## The schema mapper (`NewModel`, `parseColumn`, `iterateFields`) -/

/-- The data `parseColumn` reads from one `reflect.StructField`: the Go
field name, the `gorm` tag's `COLUMN` and `SERIALIZER` values (`""` when
absent), the `EMBEDDEDPREFIX` value (`preTag`, `""` when absent),
whether the `EMBEDDED` key is present (`embTag`), and whether the field
is anonymous (Go embedding). -/
structure StructField where
  name : String
  tagColumn : String := ""
  tagSerializer : String := ""
  preTag : String := ""
  embTag : Bool := false
  anonymous : Bool := false
deriving DecidableEq, Repr

/-- The global `serializers` registry: only `"json"` is registered. -/
def knownSerializers : List String := ["json"]

/-- `parseColumn`: the leaf's bare name is the `COLUMN` override if
present, else the naming convention applied to the field name; every
ancestor that declares `EMBEDDEDPREFIX` and is embedded (tagged
`EMBEDDED` or anonymous) prepends its prefix, outermost first.  An
unknown `SERIALIZER` tag on the leaf is a construction-time panic. -/
def parseColumn (namer : String → String) (path : List StructField) :
    Except SqldbErr (String × Option String) :=
  match path.getLast? with
  | none => .ok ("", none)
  | some sf =>
    let parents := path.dropLast
    let column := if sf.tagColumn = "" then namer sf.name else sf.tagColumn
    let pre := parents.foldl
      (fun acc pf =>
        if pf.preTag ≠ "" ∧ (pf.embTag = true ∨ pf.anonymous = true) then
          acc ++ pf.preTag
        else acc)
      ""
    if sf.tagSerializer = "" then .ok (pre ++ column, none)
    else if knownSerializers.contains sf.tagSerializer then
      .ok (pre ++ column, some sf.tagSerializer)
    else .error (.unsupportedSerializer sf.tagSerializer)

mutual
/-- The shape of one exported record field, as seen by `iterateFields`:
either a `Column[T]` / `PtrColumn[T]` leaf (a `columnNameSetter`), or a
nested struct the walker dives into. -/
inductive RecordField where
  | col (sf : StructField) (ty : GoTy)
  | sub (sf : StructField) (fields : RecordFields)
deriving DecidableEq, Repr

/-- A record type's exported fields in declaration order. -/
inductive RecordFields where
  | nil
  | cons (f : RecordField) (fs : RecordFields)
deriving DecidableEq, Repr
end

mutual
/-- The leaf field paths visited by `iterateFields`, in declaration
order, each extending the accumulated `path`. -/
def leafPaths (path : List StructField) : RecordField → List (List StructField)
  | .col sf _ => [path ++ [sf]]
  | .sub sf fs => leafPathsList (path ++ [sf]) fs

def leafPathsList (path : List StructField) :
    RecordFields → List (List StructField)
  | .nil => []
  | .cons f fs => leafPaths path f ++ leafPathsList path fs
end

mutual
/-- Whether some field anywhere in the subtree bears the given name. -/
def RecordField.hasName (n : String) : RecordField → Bool
  | .col sf _ => sf.name = n
  | .sub sf fs => sf.name = n || RecordFields.hasName n fs

def RecordFields.hasName (n : String) : RecordFields → Bool
  | .nil => false
  | .cons f fs => RecordField.hasName n f || RecordFields.hasName n fs
end

mutual
/-- Whether every leaf's `SERIALIZER` tag is absent or registered, so
that `parseColumn` succeeds on every leaf path. -/
def RecordField.serOk : RecordField → Bool
  | .col sf _ => sf.tagSerializer = "" || knownSerializers.contains sf.tagSerializer
  | .sub _ fs => RecordFields.serOk fs

def RecordFields.serOk : RecordFields → Bool
  | .nil => true
  | .cons f fs => RecordField.serOk f && RecordFields.serOk fs
end

/-- The body of the `iterateFields` callback in `NewModel`, for one leaf
path: the table qualifier is the model's table name, except that for a
joined model the side is chosen by whether the path's field names
contain `"Left"`; the joined form stores the qualified string in the
bare-name slot with an empty table, the single-table form stores table
and bare name separately.  The key is the dot-joined field path. -/
def newModelEntry (joined : Bool)
    (tableName leftTable rightTable : String) (namer : String → String)
    (p : List StructField) : Except SqldbErr (String × ColumnName) := do
  let fieldNames := p.map (·.name)
  let table :=
    if joined then
      if fieldNames.contains "Left" then leftTable else rightTable
    else tableName
  let res ← parseColumn namer p
  let cn : ColumnName :=
    if joined then ⟨"", table ++ "." ++ res.1⟩ else ⟨table, res.1⟩
  .ok (String.intercalate "." fieldNames, cn)

/-- The `fieldPathToColumn` mapping built by `NewModel`: one entry per
leaf, in `iterateFields` order. -/
def newModelMapping (joined : Bool)
    (tableName leftTable rightTable : String) (namer : String → String)
    (rec : RecordFields) : Except SqldbErr (List (String × ColumnName)) :=
  (leafPathsList [] rec).mapM
    (newModelEntry joined tableName leftTable rightTable namer)

/-- `JoinedEntity._tableName()`: `"Join"` plus both component type
names, left then right. -/
def joinedTableName (leftType rightType : String) : String :=
  "Join" ++ leftType ++ rightType

/-- The schema `NewModel` produces: the table name (the synthesized
joined name, or the naming convention applied to the type name) and the
field-path-to-`ColumnName` mapping. -/
def newModelSchema (joined : Bool) (typeNameL typeNameR : String)
    (tableNamer : String → String) (namer : String → String)
    (rec : RecordFields) : Except SqldbErr (String × List (String × ColumnName)) := do
  let tableName :=
    if joined then joinedTableName typeNameL typeNameR
    else tableNamer typeNameL
  let mapping ← newModelMapping joined tableName
    (tableNamer typeNameL) (tableNamer typeNameR) namer rec
  .ok (tableName, mapping)

/-- The `Left` field of `JoinedEntity[L, R]`: named `Left`, tagged
`gorm:"embedded"`. -/
def leftSF : StructField := { name := "Left", embTag := true }

/-- The `Right` field of `JoinedEntity[L, R]`: named `Right`, tagged
`gorm:"embedded"`. -/
def rightSF : StructField := { name := "Right", embTag := true }

/-- The record shape of `JoinedEntity[L, R]`. -/
def joinedRec (L R : RecordFields) : RecordFields :=
  .cons (.sub leftSF L) (.cons (.sub rightSF R) .nil)

/-- Concatenation of a list of strings in order (used to state the
accumulated embedded prefix). -/
def concatAll : List String → String
  | [] => ""
  | s :: rest => s ++ concatAll rest

/-! ## Helper lemmas -/

theorem newOpOption_col (T ty : GoTy) (rn : ColumnName) (op : QueryOp)
    (name : ColumnName) (h : convertible ty T = true) :
    newOpOption T (.col ty rn) op name = .ok (.join ⟨name, rn, op⟩) := by
  simp [newOpOption, Operand.reflTy, h]

theorem newOpOption_lit (T : GoTy) (v : GoVal) (op : QueryOp)
    (name : ColumnName) (h : convertible v.tyOf T = true) :
    newOpOption T (.lit v) op name = .ok (.query ⟨name, convertVal v T, op⟩) := by
  simp [newOpOption, Operand.reflTy, h]

theorem newOpOption_fail (T : GoTy) (v : Operand) (op : QueryOp)
    (name : ColumnName) (h : convertible v.reflTy T = false) :
    newOpOption T v op name =
      .error (.invalidOperand v.reflTy.typeName T.typeName) := by
  simp [newOpOption, h]

/-! ## Claim theorems -/

/-- C1: for two column identities `a`, `b` with convertible underlying
types, each of `EQ`/`NE`/`GT`/`LT`/`GTE`/`LTE` resolves — once, at
construction — to a `ColumnCompare` (the Either's Left, carrying both
column names), while calling the same methods with a convertible literal
`v` resolves to a `LiteralCompare` (the Either's Right) carrying `v`
converted to the column's underlying type. -/
theorem opOption_resolution (a b : ColumnId) (v : GoVal) :
    (convertible b.ty a.ty = true →
      a.EQ b.asOperand = .ok (.join ⟨a.name, b.name, OpEq⟩) ∧
      a.NE b.asOperand = .ok (.join ⟨a.name, b.name, OpNe⟩) ∧
      a.GT b.asOperand = .ok (.join ⟨a.name, b.name, OpGt⟩) ∧
      a.LT b.asOperand = .ok (.join ⟨a.name, b.name, OpLt⟩) ∧
      a.GTE b.asOperand = .ok (.join ⟨a.name, b.name, OpGte⟩) ∧
      a.LTE b.asOperand = .ok (.join ⟨a.name, b.name, OpLte⟩)) ∧
    (convertible v.tyOf a.ty = true →
      a.EQ (.lit v) = .ok (.query ⟨a.name, convertVal v a.ty, OpEq⟩) ∧
      a.NE (.lit v) = .ok (.query ⟨a.name, convertVal v a.ty, OpNe⟩) ∧
      a.GT (.lit v) = .ok (.query ⟨a.name, convertVal v a.ty, OpGt⟩) ∧
      a.LT (.lit v) = .ok (.query ⟨a.name, convertVal v a.ty, OpLt⟩) ∧
      a.GTE (.lit v) = .ok (.query ⟨a.name, convertVal v a.ty, OpGte⟩) ∧
      a.LTE (.lit v) = .ok (.query ⟨a.name, convertVal v a.ty, OpLte⟩)) := by
  constructor
  · intro h
    exact ⟨newOpOption_col a.ty b.ty b.name OpEq a.name h,
      newOpOption_col a.ty b.ty b.name OpNe a.name h,
      newOpOption_col a.ty b.ty b.name OpGt a.name h,
      newOpOption_col a.ty b.ty b.name OpLt a.name h,
      newOpOption_col a.ty b.ty b.name OpGte a.name h,
      newOpOption_col a.ty b.ty b.name OpLte a.name h⟩
  · intro h
    exact ⟨newOpOption_lit a.ty v OpEq a.name h,
      newOpOption_lit a.ty v OpNe a.name h,
      newOpOption_lit a.ty v OpGt a.name h,
      newOpOption_lit a.ty v OpLt a.name h,
      newOpOption_lit a.ty v OpGte a.name h,
      newOpOption_lit a.ty v OpLte a.name h⟩

/-- Witness for C1: an `int` column compared to a `uint64` column gives
the join form, compared to a `uint64` literal gives the literal form
with the converted value. -/
theorem opOption_resolution_witness :
    ColumnId.EQ ⟨.int, ⟨"users", "age"⟩⟩
        (ColumnId.asOperand ⟨.uint, ⟨"relations", "age"⟩⟩) =
      .ok (.join ⟨⟨"users", "age"⟩, ⟨"relations", "age"⟩, OpEq⟩) ∧
    ColumnId.EQ ⟨.int, ⟨"users", "age"⟩⟩ (.lit (.uint 5)) =
      .ok (.query ⟨⟨"users", "age"⟩, .int 5, OpEq⟩) :=
  ⟨((opOption_resolution ⟨.int, ⟨"users", "age"⟩⟩ ⟨.uint, ⟨"relations", "age"⟩⟩
      (.uint 5)).1 (by decide)).1,
   ((opOption_resolution ⟨.int, ⟨"users", "age"⟩⟩ ⟨.uint, ⟨"relations", "age"⟩⟩
      (.uint 5)).2 (by decide)).1⟩

/-- C6: `newOpOption` — the shared constructor behind `EQ`/`NE`/`GT`/
`LT`/`GTE`/`LTE` — fails at construction with the `InvalidOperand` panic
exactly when the operand's underlying type is not convertible to the
column's declared type, and succeeds for every convertible operand; the
six comparison methods all delegate to it. -/
theorem invalid_operand_at_construction (T : GoTy) (v : Operand)
    (op : QueryOp) (name : ColumnName) :
    (convertible v.reflTy T = false →
      newOpOption T v op name =
        .error (.invalidOperand v.reflTy.typeName T.typeName)) ∧
    (convertible v.reflTy T = true →
      ∃ o, newOpOption T v op name = .ok o) ∧
    (∀ c : ColumnId,
      c.EQ v = newOpOption c.ty v OpEq c.name ∧
      c.NE v = newOpOption c.ty v OpNe c.name ∧
      c.GT v = newOpOption c.ty v OpGt c.name ∧
      c.LT v = newOpOption c.ty v OpLt c.name ∧
      c.GTE v = newOpOption c.ty v OpGte c.name ∧
      c.LTE v = newOpOption c.ty v OpLte c.name) := by
  refine ⟨fun h => newOpOption_fail T v op name h, fun h => ?_,
    fun c => ⟨rfl, rfl, rfl, rfl, rfl, rfl⟩⟩
  cases v with
  | col ty rn => exact ⟨_, newOpOption_col T ty rn op name h⟩
  | lit val => exact ⟨_, newOpOption_lit T val op name h⟩

/-- Witness for C6: a `string` literal against a `bool` column fails at
construction with `InvalidOperand`; an `int` literal against an `int`
column succeeds. -/
theorem invalid_operand_at_construction_witness :
    newOpOption .bool (.lit (.str "x")) OpEq ⟨"", "flag"⟩ =
      .error (.invalidOperand "string" "bool") ∧
    (∃ o, newOpOption .int (.lit (.int 3)) OpEq ⟨"", "age"⟩ = .ok o) :=
  ⟨(invalid_operand_at_construction .bool (.lit (.str "x")) OpEq
      ⟨"", "flag"⟩).1 (by decide),
   (invalid_operand_at_construction .int (.lit (.int 3)) OpEq
      ⟨"", "age"⟩).2.1 (by decide)⟩

/-- C2 counterexample: handing the join composer an empty condition list
does NOT fail — the join is silently built with an empty ON condition
(`"INNER JOIN users on "`), refuting the claimed `EmptyJoinCondition`
construction error. -/
theorem join_empty_conditions_cex :
    joinBuild "users" [] [] false = .ok ⟨"", "INNER JOIN users on "⟩ := by
  rfl

/-- C2 amended: the join composer performs no emptiness validation on
its condition list: for every right table, selected-column list and join
kind, zero conditions construct — without any error — a join clause
whose ON condition is the empty string; any failure is deferred to the
backend executing the malformed SQL. -/
theorem join_empty_conditions_silent (rightTable : String)
    (sel : List ColumnName) (leftJoin : Bool) :
    joinBuild rightTable sel [] leftJoin =
      .ok ⟨String.intercalate ","
            (sel.map fun cn => cn.Full ++ " AS `" ++ cn.Full ++ "`"),
          (if leftJoin then "LEFT JOIN" else "INNER JOIN") ++ " " ++
            rightTable ++ " on "⟩ := by
  unfold joinBuild
  rw [List.mapM_nil]
  simp [String.intercalate, String.append_empty]

theorem parseFold_join_err (opts : List FilterOption) (o : OpJoinOpt)
    (h : FilterOption.op (.join o) ∈ opts) :
    ∀ acc, List.foldlM parseFilterStep acc opts = .error .mustRightOnLeft := by
  induction opts with
  | nil => cases h
  | cons hd tl ih =>
    intro acc
    rcases List.mem_cons.mp h with heq | hmem
    · subst heq
      simp [List.foldlM_cons, parseFilterStep, OpOption.GetFilterOptionType,
        OpOption.mustRight, Except.map, bind, Except.bind]
    · cases hd with
      | op o2 =>
        cases o2 with
        | join o3 =>
          simp [List.foldlM_cons, parseFilterStep, OpOption.GetFilterOptionType,
            OpOption.mustRight, Except.map, bind, Except.bind]
        | query q =>
          simp only [List.foldlM_cons, parseFilterStep,
            OpOption.GetFilterOptionType, OpOption.mustRight, Except.map,
            bind, Except.bind, pure, Except.pure]
          exact ih hmem _
      | range r =>
        simp only [List.foldlM_cons, parseFilterStep, bind, Except.bind,
          pure, Except.pure]
        exact ih hmem _
      | fuzzy f =>
        simp only [List.foldlM_cons, parseFilterStep, bind, Except.bind,
          pure, Except.pure]
        exact ih hmem _

theorem parseFold_err_shape (opts : List FilterOption) :
    ∀ acc e, List.foldlM parseFilterStep acc opts = .error e →
      e = .mustRightOnLeft := by
  induction opts with
  | nil =>
    intro acc e h
    simp [List.foldlM_nil, pure, Except.pure] at h
  | cons hd tl ih =>
    intro acc e h
    cases hd with
    | op o2 =>
      cases o2 with
      | join o3 =>
        simp [List.foldlM_cons, parseFilterStep, OpOption.GetFilterOptionType,
          OpOption.mustRight, Except.map, bind, Except.bind] at h
        exact h.symm
      | query q =>
        simp only [List.foldlM_cons, parseFilterStep,
          OpOption.GetFilterOptionType, OpOption.mustRight, Except.map,
          bind, Except.bind, pure, Except.pure] at h
        exact ih _ _ h
    | range r =>
      simp only [List.foldlM_cons, parseFilterStep, bind, Except.bind,
        pure, Except.pure] at h
      exact ih _ _ h
    | fuzzy f =>
      simp only [List.foldlM_cons, parseFilterStep, bind, Except.bind,
        pure, Except.pure] at h
      exact ih _ _ h

/-- C3: a `FilterOptions` collection containing an `OpOption` resolved
as a join condition (`ColumnCompare`) is rejected at the boundary where
the single-table query path consumes it: `parseFilterOptions` hits the
`MustRight` panic, and so does `applyFilterOptions` — the entry point of
`Get`/`List`/`Update`/`Delete` — for every query state; the condition is
never coerced into a literal comparison (no filter set is produced at
all). -/
theorem join_condition_rejected (opts : List FilterOption) (o : OpJoinOpt)
    (h : FilterOption.op (.join o) ∈ opts) :
    parseFilterOptions opts = .error .mustRightOnLeft ∧
    ∀ (joined : Bool) (sers : List String) (db : QueryState),
      applyFilterOptions joined sers opts db = .error .mustRightOnLeft := by
  have hp : parseFilterOptions opts = .error .mustRightOnLeft :=
    parseFold_join_err opts o h {}
  refine ⟨hp, fun joined sers db => ?_⟩
  simp [applyFilterOptions, hp, bind, Except.bind]

/-- Witness for C3: a filter list holding one fuzzy option and one
join-resolved `OpOption` is rejected by `parseFilterOptions` and by
`applyFilterOptions`. -/
theorem join_condition_rejected_witness :
    parseFilterOptions
        [.fuzzy ⟨⟨"", "n"⟩, [.str "x"]⟩,
         .op (.join ⟨⟨"", "a"⟩, ⟨"", "b"⟩, "="⟩)] =
      .error .mustRightOnLeft ∧
    applyFilterOptions false []
        [.fuzzy ⟨⟨"", "n"⟩, [.str "x"]⟩,
         .op (.join ⟨⟨"", "a"⟩, ⟨"", "b"⟩, "="⟩)] {} =
      .error .mustRightOnLeft :=
  ⟨(join_condition_rejected _ ⟨⟨"", "a"⟩, ⟨"", "b"⟩, "="⟩
      (by simp)).1,
   (join_condition_rejected _ ⟨⟨"", "a"⟩, ⟨"", "b"⟩, "="⟩
      (by simp)).2 false [] {}⟩

theorem applyOp_err_shape (joined : Bool) (sers : List String)
    (opts : List OpQueryOpt) (db : QueryState) (e : SqldbErr)
    (h : applyOpQueryOptions joined sers opts db = .error e) :
    e = .missingOp := by
  by_cases h1 : opts = []
  · simp [applyOpQueryOptions, h1] at h
  · by_cases h2 : opts.any (fun o => o.op = "") = true
    · simp [applyOpQueryOptions, h1, h2] at h
      exact h.symm
    · simp [applyOpQueryOptions, h1, h2] at h

theorem applyFilter_err_shape (joined : Bool) (sers : List String)
    (queries : List FilterOption) (db : QueryState) (e : SqldbErr)
    (h : applyFilterOptions joined sers queries db = .error e) :
    e = .mustRightOnLeft ∨ e = .missingOp := by
  unfold applyFilterOptions at h
  cases hp : parseFilterOptions queries with
  | error ep =>
    rw [hp] at h
    simp only [bind, Except.bind] at h
    injection h with h2
    subst h2
    exact .inl (parseFold_err_shape queries {} _ hp)
  | ok parsed =>
    rw [hp] at h
    simp only [bind, Except.bind] at h
    cases ho : applyOpQueryOptions joined sers parsed.opQuery db with
    | error eo =>
      rw [ho] at h
      injection h with h2
      subst h2
      exact .inr (applyOp_err_shape joined sers parsed.opQuery db _ ho)
    | ok db2 =>
      rw [ho] at h
      simp [pure, Except.pure] at h

/-- C7: calling `executor.Update` with an empty `UpdateOption` list
fails with the `errors.New("empty options")` error before any update map
or backend query is built (so zero rows are reported affected), while
for any non-empty option list that error branch is never taken. -/
theorem update_empty_options (joined : Bool) (sers : List String)
    (queries : List FilterOption) :
    executorUpdate joined sers queries [] = .error .emptyOptions ∧
    ∀ opts : List UpdateOpt, opts ≠ [] →
      executorUpdate joined sers queries opts ≠ .error .emptyOptions := by
  refine ⟨by simp [executorUpdate], fun opts hne => ?_⟩
  unfold executorUpdate
  simp only [if_neg hne]
  rcases ha : applyFilterOptions joined sers queries {} with e | db
  · simp only [ha, bind, Except.bind]
    intro hcontra
    cases hcontra
    rcases applyFilter_err_shape joined sers queries {} _ ha with h | h <;>
      simp_all
  · simp [ha, bind, Except.bind, pure, Except.pure]

/-- Witness for C7: the empty list errors with `empty options`; the
singleton list does not take that branch. -/
theorem update_empty_options_witness :
    executorUpdate false [] [] [] = .error .emptyOptions ∧
    executorUpdate false [] [] [⟨⟨"", "c"⟩, .int 3⟩] ≠
      .error .emptyOptions :=
  ⟨(update_empty_options false [] []).1,
   (update_empty_options false [] []).2 [⟨⟨"", "c"⟩, .int 3⟩] (by simp)⟩

/-- C10: each value of a fuzzy query option contributes one
`col LIKE ?` predicate whose bound pattern is the value wrapped in `%`
wildcards on both sides; the predicates of one option are joined with
`OR` into a single `Where` conjunct; and the conjuncts of distinct
filter options are conjoined with `AND` by the backend's WHERE
composition. -/
theorem fuzzy_like_patterns (joined : Bool) (opts : List FuzzyQ)
    (db : QueryState) :
    (applyFuzzyQueryOptions joined opts db).wheres =
      db.wheres ++ opts.map (fun o =>
        ⟨String.intercalate " OR "
            (o.values.map fun _ => getColumnName joined o.name ++ " LIKE ?"),
         o.values.map fun v => WhereArg.one (.str ("%" ++ formatV v ++ "%"))⟩) ∧
    (applyFuzzyQueryOptions joined opts db).whereSQL =
      String.intercalate " AND "
        ((applyFuzzyQueryOptions joined opts db).wheres.map
          fun w => "(" ++ w.query ++ ")") := by
  refine ⟨?_, rfl⟩
  induction opts generalizing db with
  | nil => simp [applyFuzzyQueryOptions]
  | cons o rest ih =>
    simp only [applyFuzzyQueryOptions, List.foldl_cons] at ih ⊢
    rw [ih]
    simp [QueryState.Where, List.append_assoc]

theorem applyOp_state (joined : Bool) (sers : List String)
    (opts : List OpQueryOpt) (db db2 : QueryState)
    (h : applyOpQueryOptions joined sers opts db = .ok db2) :
    db2.limit = db.limit ∧ db2.offset = db.offset := by
  by_cases h1 : opts = []
  · simp only [applyOpQueryOptions, if_pos h1] at h
    injection h with h2
    subst h2
    exact ⟨rfl, rfl⟩
  · by_cases h2 : opts.any (fun o => o.op = "") = true
    · simp [applyOpQueryOptions, h1, h2] at h
    · simp only [applyOpQueryOptions, if_neg h1, if_neg h2] at h
      injection h with h3
      subst h3
      exact ⟨rfl, rfl⟩

theorem applyRange_state (joined : Bool) (sers : List String)
    (opts : List RangeQ) (db : QueryState) :
    (applyRangeQueryOptions joined sers opts db).limit = db.limit ∧
    (applyRangeQueryOptions joined sers opts db).offset = db.offset := by
  by_cases h1 : opts = [] <;>
    simp [applyRangeQueryOptions, h1, QueryState.Where]

theorem applyFuzzy_state (joined : Bool) (opts : List FuzzyQ)
    (db : QueryState) :
    (applyFuzzyQueryOptions joined opts db).limit = db.limit ∧
    (applyFuzzyQueryOptions joined opts db).offset = db.offset := by
  induction opts generalizing db with
  | nil => exact ⟨rfl, rfl⟩
  | cons o rest ih =>
    simp only [applyFuzzyQueryOptions, List.foldl_cons] at ih ⊢
    exact ih _

theorem applyFilter_state (joined : Bool) (sers : List String)
    (queries : List FilterOption) (db db2 : QueryState)
    (h : applyFilterOptions joined sers queries db = .ok db2) :
    db2.limit = db.limit ∧ db2.offset = db.offset := by
  unfold applyFilterOptions at h
  cases hp : parseFilterOptions queries with
  | error ep => rw [hp] at h; simp [bind, Except.bind] at h
  | ok parsed =>
    rw [hp] at h
    simp only [bind, Except.bind] at h
    cases ho : applyOpQueryOptions joined sers parsed.opQuery db with
    | error eo => rw [ho] at h; cases h
    | ok dbo =>
      rw [ho] at h
      simp only [pure, Except.pure] at h
      injection h with h2
      subst h2
      have hop := applyOp_state joined sers parsed.opQuery db dbo ho
      have hr := applyRange_state joined sers parsed.range dbo
      have hf := applyFuzzy_state joined parsed.fuzzy
        (applyRangeQueryOptions joined sers parsed.range dbo)
      exact ⟨hf.1.trans (hr.1.trans hop.1), hf.2.trans (hr.2.trans hop.2)⟩

theorem ordersFold_state (joined : Bool) (l : List SortOpt) :
    ∀ db : QueryState,
      (l.foldl (fun d so =>
        d.Order (getColumnName joined so.name ++ " " ++ so.order)) db).limit
        = db.limit ∧
      (l.foldl (fun d so =>
        d.Order (getColumnName joined so.name ++ " " ++ so.order)) db).offset
        = db.offset := by
  induction l with
  | nil => exact fun db => ⟨rfl, rfl⟩
  | cons so rest ih =>
    intro db
    simp only [List.foldl_cons]
    exact ih _

theorem runRows_unbounded {α : Type} (q : QueryState) (matching : List α)
    (h1 : q.limit = none) (h2 : q.offset = none) :
    q.runRows matching = matching := by
  simp [QueryState.runRows, h1, h2]

/-- C9: in `executor.List`, the `Count` producing the returned total is
issued on the filtered query before `Limit` and `Offset` are applied, so
it returns exactly the rows matching the filter whatever the pagination
options are; `Limit` and `Offset` are applied to the `Find` query only
when non-zero; and with both zero the `Find` query returns every
matching row rather than zero rows. -/
theorem list_zero_pagination (joined : Bool) (sers : List String)
    (queries : List FilterOption) (opts : ListOptions) (cs fs : QueryState)
    (h : executorList joined sers queries opts = .ok (cs, fs)) :
    (∀ {α : Type} (matching : List α), cs.runRows matching = matching) ∧
    fs.limit = (if opts.Limit = 0 then none else some opts.Limit) ∧
    fs.offset = (if opts.Offset = 0 then none else some opts.Offset) ∧
    (opts.Limit = 0 → opts.Offset = 0 →
      ∀ {α : Type} (matching : List α), fs.runRows matching = matching) := by
  unfold executorList at h
  cases ha : applyFilterOptions joined sers queries {} with
  | error e => rw [ha] at h; simp [bind, Except.bind] at h
  | ok db =>
    rw [ha] at h
    simp only [bind, Except.bind, pure, Except.pure, Except.ok.injEq,
      Prod.mk.injEq] at h
    obtain ⟨rfl, rfl⟩ := h
    have hdb := applyFilter_state joined sers queries {} db ha
    refine ⟨fun {α} matching => runRows_unbounded db matching hdb.1 hdb.2,
      ?_, ?_, ?_⟩
    · rw [(ordersFold_state joined opts.SortOptions _).1]
      by_cases hof : opts.Offset = 0 <;> by_cases hl : opts.Limit = 0 <;>
        simp [hof, hl, QueryState.Offset, QueryState.Limit, hdb.1]
    · rw [(ordersFold_state joined opts.SortOptions _).2]
      by_cases hof : opts.Offset = 0 <;> by_cases hl : opts.Limit = 0 <;>
        simp [hof, hl, QueryState.Offset, QueryState.Limit, hdb.2]
    · intro hl hof α matching
      refine runRows_unbounded _ matching ?_ ?_
      · rw [(ordersFold_state joined opts.SortOptions _).1]
        simp [hl, hof, hdb.1]
      · rw [(ordersFold_state joined opts.SortOptions _).2]
        simp [hl, hof, hdb.2]

/-- Witness for C9: an empty filter with `Limit = 0`, `Offset = 0`
yields count and find queries that both return all matching rows. -/
theorem list_zero_pagination_witness :
    executorList false [] [] ⟨0, 0, []⟩ =
      .ok (⟨[], none, none, []⟩, ⟨[], none, none, []⟩) ∧
    QueryState.runRows ⟨[], none, none, []⟩ ([1, 2, 3] : List Nat) =
      [1, 2, 3] :=
  ⟨rfl,
   (list_zero_pagination false [] [] ⟨0, 0, []⟩ ⟨[], none, none, []⟩
      ⟨[], none, none, []⟩ rfl).1 [1, 2, 3]⟩

theorem foldl_pre_all (ps : List StructField) :
    ∀ acc : String,
      (∀ pf ∈ ps, pf.preTag ≠ "" ∧ (pf.embTag = true ∨ pf.anonymous = true)) →
      ps.foldl (fun acc pf =>
        if pf.preTag ≠ "" ∧ (pf.embTag = true ∨ pf.anonymous = true) then
          acc ++ pf.preTag
        else acc) acc
        = acc ++ concatAll (ps.map (·.preTag)) := by
  induction ps with
  | nil => intro acc h; simp [concatAll, String.append_empty]
  | cons p ps ih =>
    intro acc h
    have hp := h p (List.mem_cons_self _ _)
    simp only [List.foldl_cons, List.map_cons, concatAll]
    rw [if_pos hp, ih _ (fun pf hm => h pf (List.mem_cons_of_mem _ hm)),
      String.append_assoc]

/-- C4: for a leaf field reached through any chain of ancestors that
each declare an embedded prefix and are marked embedded (tagged
`EMBEDDED` or anonymous), `parseColumn` resolves the column name to the
concatenation of all ancestor prefixes, outermost first, followed by the
field's own bare name (its `COLUMN` override, or the naming convention
applied to the field name). -/
theorem parseColumn_pre_concat (namer : String → String)
    (parents : List StructField) (sf : StructField)
    (hser : sf.tagSerializer = "")
    (hall : ∀ pf ∈ parents,
      pf.preTag ≠ "" ∧ (pf.embTag = true ∨ pf.anonymous = true)) :
    parseColumn namer (parents ++ [sf]) =
      .ok (concatAll (parents.map (·.preTag)) ++
        (if sf.tagColumn = "" then namer sf.name else sf.tagColumn), none) := by
  unfold parseColumn
  rw [List.getLast?_concat]
  simp only [List.dropLast_concat]
  rw [foldl_pre_all parents "" hall]
  simp [hser, String.empty_append]

/-- Witness for C4: two levels of embedded prefixes `extra_` and
`inner_` around a leaf named `Data` resolve to `extra_inner_data`. -/
theorem parseColumn_pre_concat_witness :
    parseColumn (fun _ => "data")
      ([⟨"Extra", "", "", "extra_", true, false⟩,
        ⟨"Inner", "", "", "inner_", true, false⟩] ++
       [⟨"Data", "", "", "", false, false⟩]) =
      .ok ("extra_inner_data", none) := by
  rw [parseColumn_pre_concat (fun _ => "data") _ _ rfl (by decide)]
  decide

/-- C8: schema construction is idempotent and deterministic — the
embedded `NewModel` reads only its immutable inputs (the record shape
and the naming configuration) and allocates fresh state per call, so two
builds for the same record type return the same table name and pointwise
equal field-path-to-`ColumnName` mappings. -/
theorem schema_idempotent (joined : Bool) (typeNameL typeNameR : String)
    (tableNamer namer : String → String) (rec : RecordFields) :
    ∀ s1 s2,
      newModelSchema joined typeNameL typeNameR tableNamer namer rec = .ok s1 →
      newModelSchema joined typeNameL typeNameR tableNamer namer rec = .ok s2 →
      s1.1 = s2.1 ∧ ∀ key, s1.2.lookup key = s2.2.lookup key := by
  intro s1 s2 h1 h2
  rw [h1] at h2
  injection h2 with h3
  subst h3
  exact ⟨rfl, fun key => rfl⟩

/-- Witness for C8: two builds for a one-column `User` record agree on
the table name and on every key's lookup. -/
theorem schema_idempotent_witness :
    newModelSchema false "User" "" (fun s => s) (fun _ => "id")
        (.cons (.col ⟨"ID", "", "", "", false, false⟩ .int) .nil) =
      .ok ("User", [("ID", ⟨"User", "id"⟩)]) ∧
    (("User", [("ID", (⟨"User", "id"⟩ : ColumnName))]).1 =
        ("User", [("ID", (⟨"User", "id"⟩ : ColumnName))]).1 ∧
      ∀ key,
        ("User", [("ID", (⟨"User", "id"⟩ : ColumnName))]).2.lookup key =
          ("User", [("ID", (⟨"User", "id"⟩ : ColumnName))]).2.lookup key) :=
  ⟨by decide,
   schema_idempotent false "User" "" (fun s => s) (fun _ => "id")
     (.cons (.col ⟨"ID", "", "", "", false, false⟩ .int) .nil)
     ("User", [("ID", ⟨"User", "id"⟩)]) ("User", [("ID", ⟨"User", "id"⟩)])
     (by decide) (by decide)⟩

theorem mapM_ok_append {ε α β : Type} (f : α → Except ε β) (l1 l2 : List α)
    (ys zs : List β) (h1 : l1.mapM f = .ok ys) (h2 : l2.mapM f = .ok zs) :
    (l1 ++ l2).mapM f = .ok (ys ++ zs) := by
  rw [List.mapM_append, h1]
  show Except.bind (List.mapM f l2) (fun b => pure (ys ++ b)) =
    Except.ok (ys ++ zs)
  rw [h2]
  rfl

theorem mapM_ok_forall {ε α β : Type} (f : α → Except ε β) (l : List α)
    (h : ∀ x ∈ l, ∃ y, f x = .ok y) :
    ∃ ys, l.mapM f = .ok ys ∧ ys.length = l.length ∧
      ∀ y ∈ ys, ∃ x ∈ l, f x = .ok y := by
  induction l with
  | nil =>
    refine ⟨[], ?_, rfl, by simp⟩
    rw [List.mapM_nil]
    rfl
  | cons a l ih =>
    obtain ⟨y, hy⟩ := h a (List.mem_cons_self _ _)
    obtain ⟨ys, hys, hlen, hall⟩ :=
      ih (fun x hx => h x (List.mem_cons_of_mem _ hx))
    refine ⟨y :: ys, ?_, by simp [hlen], ?_⟩
    · rw [List.mapM_cons, hy]
      show Except.bind (List.mapM f l) (fun bs => pure (y :: bs)) =
        Except.ok (y :: ys)
      rw [hys]
      rfl
    · intro z hz
      rcases List.mem_cons.mp hz with rfl | hz2
      · exact ⟨a, List.mem_cons_self _ _, hy⟩
      · obtain ⟨x, hx, hfx⟩ := hall z hz2
        exact ⟨x, List.mem_cons_of_mem _ hx, hfx⟩

mutual
theorem leafPaths_extend (path : List StructField) (f : RecordField) :
    ∀ p ∈ leafPaths path f, ∃ q, p = path ++ q := by
  cases f with
  | col sf ty =>
    intro p hp
    simp only [leafPaths, List.mem_singleton] at hp
    exact ⟨[sf], hp⟩
  | sub sf fs =>
    intro p hp
    simp only [leafPaths] at hp
    obtain ⟨q, hq⟩ := leafPathsList_extend (path ++ [sf]) fs p hp
    exact ⟨[sf] ++ q, by simp [hq]⟩

theorem leafPathsList_extend (path : List StructField) (fs : RecordFields) :
    ∀ p ∈ leafPathsList path fs, ∃ q, p = path ++ q := by
  cases fs with
  | nil => intro p hp; simp [leafPathsList] at hp
  | cons f fs =>
    intro p hp
    simp only [leafPathsList, List.mem_append] at hp
    rcases hp with hp | hp
    · exact leafPaths_extend path f p hp
    · exact leafPathsList_extend path fs p hp
end

mutual
theorem leafPaths_names (n : String) (path : List StructField)
    (f : RecordField) (hf : RecordField.hasName n f = false) :
    ∀ p ∈ leafPaths path f, ∀ x ∈ p, x ∈ path ∨ x.name ≠ n := by
  cases f with
  | col sf ty =>
    intro p hp x hx
    simp only [leafPaths, List.mem_singleton] at hp
    subst hp
    rcases List.mem_append.mp hx with hx | hx
    · exact .inl hx
    · simp only [RecordField.hasName, decide_eq_false_iff_not] at hf
      rcases List.mem_singleton.mp hx with rfl
      exact .inr hf
  | sub sf fs =>
    intro p hp x hx
    simp only [RecordField.hasName, Bool.or_eq_false_iff,
      decide_eq_false_iff_not] at hf
    have := leafPathsList_names n (path ++ [sf]) fs hf.2 p hp x hx
    rcases this with hmem | hne
    · rcases List.mem_append.mp hmem with h1 | h1
      · exact .inl h1
      · rcases List.mem_singleton.mp h1 with rfl
        exact .inr hf.1
    · exact .inr hne

theorem leafPathsList_names (n : String) (path : List StructField)
    (fs : RecordFields) (hf : RecordFields.hasName n fs = false) :
    ∀ p ∈ leafPathsList path fs, ∀ x ∈ p, x ∈ path ∨ x.name ≠ n := by
  cases fs with
  | nil => intro p hp; simp [leafPathsList] at hp
  | cons f fs =>
    intro p hp
    simp only [RecordFields.hasName, Bool.or_eq_false_iff] at hf
    simp only [leafPathsList, List.mem_append] at hp
    rcases hp with hp | hp
    · exact leafPaths_names n path f hf.1 p hp
    · exact leafPathsList_names n path fs hf.2 p hp
end

mutual
theorem leafPaths_ser (path : List StructField) (f : RecordField)
    (hok : RecordField.serOk f = true) :
    ∀ p ∈ leafPaths path f, ∃ q sf, p = q ++ [sf] ∧
      (sf.tagSerializer = "" ∨
        knownSerializers.contains sf.tagSerializer = true) := by
  cases f with
  | col sf ty =>
    intro p hp
    simp only [leafPaths, List.mem_singleton] at hp
    subst hp
    simp only [RecordField.serOk, Bool.or_eq_true,
      decide_eq_true_eq] at hok
    exact ⟨path, sf, rfl, hok⟩
  | sub sf fs =>
    intro p hp
    simp only [leafPaths] at hp
    exact leafPathsList_ser (path ++ [sf]) fs hok p hp

theorem leafPathsList_ser (path : List StructField) (fs : RecordFields)
    (hok : RecordFields.serOk fs = true) :
    ∀ p ∈ leafPathsList path fs, ∃ q sf, p = q ++ [sf] ∧
      (sf.tagSerializer = "" ∨
        knownSerializers.contains sf.tagSerializer = true) := by
  cases fs with
  | nil => intro p hp; simp [leafPathsList] at hp
  | cons f fs =>
    intro p hp
    simp only [RecordFields.serOk, Bool.and_eq_true] at hok
    simp only [leafPathsList, List.mem_append] at hp
    rcases hp with hp | hp
    · exact leafPaths_ser path f hok.1 p hp
    · exact leafPathsList_ser path fs hok.2 p hp
end

theorem parseColumn_ok (namer : String → String) (q : List StructField)
    (sf : StructField)
    (hok : sf.tagSerializer = "" ∨
      knownSerializers.contains sf.tagSerializer = true) :
    ∃ nm, parseColumn namer (q ++ [sf]) = .ok nm := by
  simp only [parseColumn, List.getLast?_concat, List.dropLast_concat]
  by_cases h0 : sf.tagSerializer = ""
  · exact ⟨_, by rw [if_pos h0]⟩
  · rcases hok with h | h
    · exact absurd h h0
    · exact ⟨_, by rw [if_neg h0, if_pos h]⟩

theorem newModelEntry_joined (tb lT rT : String) (namer : String → String)
    (p : List StructField) (nm : String × Option String)
    (hparse : parseColumn namer p = .ok nm) :
    newModelEntry true tb lT rT namer p =
      .ok (String.intercalate "." (p.map (·.name)),
        ⟨"", (if (p.map (·.name)).contains "Left" then lT else rT) ++
          "." ++ nm.1⟩) := by
  unfold newModelEntry
  rw [hparse]
  simp [bind, Except.bind, pure, Except.pure]

/-- C5 counterexample: the joined `NewModel` decides the side of a
column by testing whether the whole field path contains a field named
`Left` (`lo.Contains(fieldNames, "Left")`).  A right component that
itself declares a nested struct field named `Left` therefore gets its
column qualified with the LEFT table name: below, the right-side leaf
`Right.Left.B` is qualified `left_tbl.B` although it originates from the
right component, refuting the claim as stated. -/
theorem joined_qualification_cex :
    newModelMapping true "JoinLR" "left_tbl" "right_tbl" (fun s => s)
      (joinedRec (.cons (.col ⟨"A", "", "", "", false, false⟩ .int) .nil)
        (.cons (.sub ⟨"Left", "", "", "", false, false⟩
          (.cons (.col ⟨"B", "", "", "", false, false⟩ .int) .nil)) .nil)) =
      .ok [("Left.A", ⟨"", "left_tbl.A"⟩),
           ("Right.Left.B", ⟨"", "left_tbl.B"⟩)] ∧
    ("left_tbl" : String) ≠ "right_tbl" :=
  ⟨by decide, by decide⟩

/-- C5 amended: after the join composer merges `left` and `right`, every
column of the left component is qualified with `left`'s table name, and
— provided no field anywhere inside the right component is named `Left`
(the side test is containment of `"Left"` in the whole field path) —
every column of the right component is qualified with `right`'s table
name, even when the two sides declare identical bare column names.  The
serializer tags are assumed valid so that construction succeeds. -/
theorem joined_qualification (L R : RecordFields) (tb lT rT : String)
    (namer : String → String)
    (hL : RecordFields.serOk L = true) (hR : RecordFields.serOk R = true)
    (hno : RecordFields.hasName "Left" R = false) :
    ∃ ls rs,
      newModelMapping true tb lT rT namer (joinedRec L R) = .ok (ls ++ rs) ∧
      ls.length = (leafPathsList [leftSF] L).length ∧
      rs.length = (leafPathsList [rightSF] R).length ∧
      (∀ e ∈ ls, e.2.table = "" ∧ ∃ bare, e.2.Name = lT ++ "." ++ bare) ∧
      (∀ e ∈ rs, e.2.table = "" ∧ ∃ bare, e.2.Name = rT ++ "." ++ bare) := by
  have hsplit : leafPathsList [] (joinedRec L R) =
      leafPathsList [leftSF] L ++ leafPathsList [rightSF] R := by
    simp [joinedRec, leafPathsList, leafPaths]
  have hLentry : ∀ p ∈ leafPathsList [leftSF] L,
      ∃ y, newModelEntry true tb lT rT namer p = .ok y ∧
        y.2.table = "" ∧ ∃ bare, y.2.Name = lT ++ "." ++ bare := by
    intro p hp
    obtain ⟨q, sfq, hq, hserq⟩ := leafPathsList_ser [leftSF] L hL p hp
    obtain ⟨nm, hparse⟩ := parseColumn_ok namer q sfq hserq
    rw [← hq] at hparse
    obtain ⟨q2, hq2⟩ := leafPathsList_extend [leftSF] L p hp
    have hcont : (p.map (·.name)).contains "Left" = true := by
      subst hq2
      simp [leftSF, List.contains_cons]
    have hent := newModelEntry_joined tb lT rT namer p nm hparse
    rw [hcont] at hent
    simp only [if_true] at hent
    exact ⟨_, hent, rfl, ⟨nm.1, rfl⟩⟩
  have hRentry : ∀ p ∈ leafPathsList [rightSF] R,
      ∃ y, newModelEntry true tb lT rT namer p = .ok y ∧
        y.2.table = "" ∧ ∃ bare, y.2.Name = rT ++ "." ++ bare := by
    intro p hp
    obtain ⟨q, sfq, hq, hserq⟩ := leafPathsList_ser [rightSF] R hR p hp
    obtain ⟨nm, hparse⟩ := parseColumn_ok namer q sfq hserq
    rw [← hq] at hparse
    have hnotin := leafPathsList_names "Left" [rightSF] R hno p hp
    have hcont : (p.map (·.name)).contains "Left" = false := by
      rw [← Bool.not_eq_true, List.elem_iff]
      intro hmem
      obtain ⟨x, hx, hxn⟩ := List.mem_map.mp hmem
      rcases hnotin x hx with hx1 | hx1
      · rcases List.mem_singleton.mp hx1 with rfl
        simp [rightSF] at hxn
      · exact hx1 hxn
    have hent := newModelEntry_joined tb lT rT namer p nm hparse
    rw [hcont] at hent
    simp only [Bool.false_eq_true, if_false] at hent
    exact ⟨_, hent, rfl, ⟨nm.1, rfl⟩⟩
  obtain ⟨ls, hlsm, hlslen, hlsmem⟩ :=
    mapM_ok_forall (newModelEntry true tb lT rT namer)
      (leafPathsList [leftSF] L)
      (fun p hp => ((hLentry p hp).imp fun y h => h.1))
  obtain ⟨rs, hrsm, hrslen, hrsmem⟩ :=
    mapM_ok_forall (newModelEntry true tb lT rT namer)
      (leafPathsList [rightSF] R)
      (fun p hp => ((hRentry p hp).imp fun y h => h.1))
  refine ⟨ls, rs, ?_, hlslen, hrslen, ?_, ?_⟩
  · unfold newModelMapping
    rw [hsplit]
    exact mapM_ok_append _ _ _ ls rs hlsm hrsm
  · intro e he
    obtain ⟨p, hp, hfe⟩ := hlsmem e he
    obtain ⟨y, hy, hprop⟩ := hLentry p hp
    rw [hy] at hfe
    injection hfe with h2
    subst h2
    exact hprop
  · intro e he
    obtain ⟨p, hp, hfe⟩ := hrsmem e he
    obtain ⟨y, hy, hprop⟩ := hRentry p hp
    rw [hy] at hfe
    injection hfe with h2
    subst h2
    exact hprop

/-- Witness for C5 (amended): joining a `User`-like left component with
a `Relation`-like right component that has no field named `Left` yields
left columns under `users.` and right columns under `relations.`. -/
theorem joined_qualification_witness :
    ∃ ls rs,
      newModelMapping true "JoinUserRelation" "users" "relations"
          (fun _ => "name")
          (joinedRec
            (.cons (.col ⟨"Name", "", "", "", false, false⟩ .str) .nil)
            (.cons (.col ⟨"UserName", "", "", "", false, false⟩ .str) .nil)) =
        .ok (ls ++ rs) ∧
      ls.length =
        (leafPathsList [leftSF]
          (.cons (.col ⟨"Name", "", "", "", false, false⟩ .str) .nil)).length ∧
      rs.length =
        (leafPathsList [rightSF]
          (.cons (.col ⟨"UserName", "", "", "", false, false⟩ .str)
            .nil)).length ∧
      (∀ e ∈ ls, e.2.table = "" ∧ ∃ bare, e.2.Name = "users" ++ "." ++ bare) ∧
      (∀ e ∈ rs, e.2.table = "" ∧
        ∃ bare, e.2.Name = "relations" ++ "." ++ bare) :=
  joined_qualification
    (.cons (.col ⟨"Name", "", "", "", false, false⟩ .str) .nil)
    (.cons (.col ⟨"UserName", "", "", "", false, false⟩ .str) .nil)
    "JoinUserRelation" "users" "relations" (fun _ => "name")
    (by decide) (by decide) (by decide)

end Sqldb
